import Mathlib

/-!
Shallow embedding of the bomcheck allocation/reconciliation engine
(`src/bomcheck_app/excel_processor.py`, with its data model in
`src/bomcheck_app/models.py` and `src/bomcheck_app/binding_library.py`),
together with theorems checking the specification's claims about it.

Modelling conventions:
* Python floats are modelled as exact rationals (`ℚ`).
* Python dicts keyed by part-number strings are modelled as association
  lists (`List (String × _)`) where the key set or insertion order matters,
  and as functions `String → ℚ` for the mutable inventory pool
  (`available_inventory`), which is only ever read via `.get(key, 0.0)`
  and written pointwise.
* Python sets used only for membership are modelled as `List String`
  with insert-if-absent.
* Code whose execution can raise is modelled in `Except String _`.
-/

namespace BomCheck

/-- Python cell values as produced by openpyxl: `None`, strings, numbers
(`int`/`float`; NaN is kept as a separate constructor since `ℚ` has no NaN),
and booleans. -/
inductive CellValue where
  | none
  | str (s : String)
  | num (q : ℚ)
  | bool (b : Bool)
  | nan
  deriving DecidableEq

/-- Python `str.strip()` (whitespace at both ends). -/
def py_strip (s : String) : String :=
  String.mk (((s.data.dropWhile Char.isWhitespace).reverse.dropWhile Char.isWhitespace).reverse)

/-- Python `str.lower()`. -/
def py_lower (s : String) : String :=
  String.mk (s.data.map Char.toLower)

/-- Python `str.upper()`. -/
def py_upper (s : String) : String :=
  String.mk (s.data.map Char.toUpper)

/-- Python `needle in hay` on strings: contiguous-substring test. -/
def substr_b (needle hay : String) : Bool :=
  decide (needle.data <:+: hay.data)

/-- Python `str(value)` on a cell value (number formatting approximated). -/
def py_str (v : CellValue) : String :=
  match v with
  | CellValue.none => "None"
  | CellValue.str s => s
  | CellValue.num q => toString q
  | CellValue.bool b => if b then "True" else "False"
  | CellValue.nan => "nan"

/-- `dict.get(key, 0.0)` on a float-valued dict. -/
def getQ (m : List (String × ℚ)) (k : String) : ℚ :=
  (m.lookup k).getD 0

/-- `excel_processor.normalize_part_no`:
`"".join(str(value).strip().upper().split())` — uppercase and delete all
whitespace (the strip/split/join combination removes every whitespace run). -/
def normalize_part_no (s : String) : String :=
  String.mk ((s.data.map Char.toUpper).filter (fun c => !c.isWhitespace))

/-- The value of a `number` field as it can arrive from the binding-library
JSON / Excel import: absent (`None` or `""`), a parsed float, or a value on
which `float(...)` raises. -/
inductive PyNum where
  | none
  | num (q : ℚ)
  | unparsable
  deriving DecidableEq

/-- `binding_library.BindingChoice`. -/
structure BindingChoice where
  part_no : String
  desc : String
  condition_mode : Option String
  condition_part_nos : List String
  number : PyNum
  deriving DecidableEq

/-- `binding_library.BindingGroup`. -/
structure BindingGroup where
  group_name : String
  number : PyNum
  choices : List BindingChoice
  deriving DecidableEq

/-- `binding_library.BindingProject`. -/
structure BindingProject where
  project_desc : String
  index_part_no : String
  index_part_desc : String
  required_groups : List BindingGroup
  deriving DecidableEq

/-- `models.RequirementGroupResult`. -/
structure RequirementGroupResult where
  group_name : String
  required_qty : ℚ
  available_qty : ℚ
  missing_qty : ℚ
  missing_choices : List String
  matched_details : List (String × ℚ)
  deriving DecidableEq

/-- `models.BindingProjectResult`. -/
structure BindingProjectResult where
  project_desc : String
  index_part_no : String
  matched_quantity : ℚ
  requirement_results : List RequirementGroupResult
  deriving DecidableEq

/-- `models.MissingItem`. -/
structure MissingItem where
  part_no : String
  desc : String
  missing_qty : ℚ
  deriving DecidableEq

/-- `models.ReplacementRecord`. -/
structure ReplacementRecord where
  invalid_part_no : String
  invalid_desc : String
  replacement_part_no : Option String
  replacement_desc : Option String
  sheet_name : String
  row_index : ℕ
  deriving DecidableEq

/-- `models.ReplacementSummary`, exactly as declared at
`models.py` lines 17-21: it has `total_invalid_found`, `total_replaced`
and `records`, and no other field. -/
structure ReplacementSummary where
  total_invalid_found : ℕ
  total_replaced : ℕ
  records : List ReplacementRecord
  deriving DecidableEq

/-- `ExcelProcessor._choice_condition_met`.  `part_quantities` is the
aggregated-quantity dict; `bool(quantity and quantity > 0)` is transcribed
literally. -/
def choice_condition_met (choice : BindingChoice) (part_quantities : List (String × ℚ)) : Bool :=
  let mode := py_upper (choice.condition_mode.getD "")
  if mode = "" then true
  else
    let condition_keys := (choice.condition_part_nos.filter (fun p => p ≠ "")).map normalize_part_no
    if condition_keys = [] then false
    else
      let has_part := fun (p : String) =>
        decide (getQ part_quantities p ≠ 0) && decide (0 < getQ part_quantities p)
      if mode = "ALL" then condition_keys.all has_part
      else if mode = "ANY" then condition_keys.any has_part
      else if mode = "NOTANY" then !(condition_keys.any has_part)
      else true

/-- One entry of `_evaluate_group`'s `applicable_choices` list:
`(idx, choice, choice_key, stock)` (only the choice's `part_no` is used
downstream). -/
structure AppChoice where
  idx : ℕ
  part_no : String
  key : String
  stock : ℚ
  deriving DecidableEq

/-- The order realised by `applicable_choices.sort(key=lambda item: (-item[3], item[0]))`:
ascending in the key `(-stock, idx)`, i.e. descending stock with ties broken
by the original enumeration index. -/
def alloc_le (a b : AppChoice) : Prop :=
  b.stock < a.stock ∨ (a.stock = b.stock ∧ a.idx ≤ b.idx)

instance : DecidableRel alloc_le := fun a b => by
  unfold alloc_le; infer_instance

instance : IsTotal AppChoice alloc_le := by
  constructor
  intro a b
  rcases lt_trichotomy a.stock b.stock with h | h | h
  · exact Or.inr (Or.inl h)
  · rcases Nat.le_total a.idx b.idx with hi | hi
    · exact Or.inl (Or.inr ⟨h, hi⟩)
    · exact Or.inr (Or.inr ⟨h.symm, hi⟩)
  · exact Or.inl (Or.inl h)

instance : IsTrans AppChoice alloc_le := by
  constructor
  intro a b c hab hbc
  rcases hab with hab | ⟨hab, hab'⟩
  · rcases hbc with hbc | ⟨hbc, _⟩
    · exact Or.inl (lt_trans hbc hab)
    · exact Or.inl (hbc ▸ hab)
  · rcases hbc with hbc | ⟨hbc, hbc'⟩
    · exact Or.inl (hab ▸ hbc)
    · exact Or.inr ⟨hab.trans hbc, hab'.trans hbc'⟩

/-- Accumulator of the first (filtering) pass over `group.choices` in
`_evaluate_group` (lines 645-669). -/
structure PassAcc where
  applicable : List AppChoice
  available_qty : ℚ
  fallback : List String
  first : Option String
  enabled : Bool
  deriving DecidableEq

/-- Body of the filtering loop of `_evaluate_group` for one `(idx, choice)`
pair. -/
def pass_step (ref : List (String × ℚ)) (inv : String → ℚ) (i : ℕ)
    (choice : BindingChoice) (acc : PassAcc) : PassAcc :=
  if choice.part_no = "" then acc
  else if choice_condition_met choice ref then
    let choice_key := normalize_part_no choice.part_no
    let total_stock := getQ ref choice_key
    let stock := max (inv choice_key) 0
    { applicable := acc.applicable ++ [⟨i, choice.part_no, choice_key, stock⟩]
      available_qty := acc.available_qty + (if 0 < total_stock then total_stock else 0)
      fallback := acc.fallback ++ [choice.part_no]
      first := match acc.first with
        | Option.none => some choice.part_no
        | some f => some f
      enabled := true }
  else acc

/-- The filtering loop of `_evaluate_group`, mirroring
`for idx, choice in enumerate(group.choices)`. -/
def applicable_pass_aux (ref : List (String × ℚ)) (inv : String → ℚ) :
    ℕ → List BindingChoice → PassAcc → PassAcc
  | _, [], acc => acc
  | i, c :: rest, acc => applicable_pass_aux ref inv (i + 1) rest (pass_step ref inv i c acc)

/-- The complete filtering pass of `_evaluate_group` starting from the empty
accumulator. -/
def applicable_pass (group : BindingGroup) (ref : List (String × ℚ))
    (inv : String → ℚ) : PassAcc :=
  applicable_pass_aux ref inv 0 group.choices ⟨[], 0, [], Option.none, false⟩

/-- Pointwise update of the inventory pool (`available_inventory[k] = v`). -/
def upd_inv (inv : String → ℚ) (k : String) (v : ℚ) : String → ℚ :=
  fun x => if x = k then v else inv x

/-- `matched_details[display] = matched_details.get(display, 0.0) + take`:
in-place accumulation into an insertion-ordered dict. -/
def add_detail (det : List (String × ℚ)) (display : String) (take : ℚ) :
    List (String × ℚ) :=
  match det with
  | [] => [(display, 0 + take)]
  | (d, v) :: rest =>
      if d = display then (d, v + take) :: rest
      else (d, v) :: add_detail rest display take

/-- The allocation loop of `_evaluate_group` (lines 683-699), transcribed
clause by clause: early `break` once the remaining requirement is met,
`continue` on non-positive stock, consumption of
`min(current_stock, remaining_need)`, pool depletion clamped at zero. -/
def alloc_loop (disp : List (String × String)) (required_qty : ℚ) :
    List AppChoice → (String → ℚ) → ℚ → List (String × ℚ) →
    ((String → ℚ) × ℚ × List (String × ℚ))
  | [], inv, fulfilled, det => (inv, fulfilled, det)
  | c :: rest, inv, fulfilled, det =>
      let remaining_need := max (required_qty - fulfilled) 0
      if remaining_need ≤ 0 then (inv, fulfilled, det)
      else
        let current_stock := max (inv c.key) 0
        if current_stock ≤ 0 then alloc_loop disp required_qty rest inv fulfilled det
        else
          let take_amount := min current_stock remaining_need
          if take_amount ≤ 0 then alloc_loop disp required_qty rest inv fulfilled det
          else
            let display_no := (disp.lookup c.key).getD c.part_no
            alloc_loop disp required_qty rest
              (upd_inv inv c.key (max (current_stock - take_amount) 0))
              (fulfilled + take_amount)
              (add_detail det display_no take_amount)

/-- Allocation walk transcribed from the SPEC's words (§4.4.1): walk the
sorted list; for each choice take `min(currentPoolBalance, remainingRequirement)`,
deplete the pool by that amount, add it to `matchedDetails`, and stop early
once the requirement is met (a non-positive take allocates nothing). -/
def spec_alloc_walk (disp : List (String × String)) (required_qty : ℚ) :
    List AppChoice → (String → ℚ) → ℚ → List (String × ℚ) →
    ((String → ℚ) × ℚ × List (String × ℚ))
  | [], inv, fulfilled, det => (inv, fulfilled, det)
  | c :: rest, inv, fulfilled, det =>
      if required_qty ≤ fulfilled then (inv, fulfilled, det)
      else
        let take := min (inv c.key) (required_qty - fulfilled)
        if 0 < take then
          spec_alloc_walk disp required_qty rest
            (upd_inv inv c.key (inv c.key - take))
            (fulfilled + take)
            (add_detail det ((disp.lookup c.key).getD c.part_no) take)
        else spec_alloc_walk disp required_qty rest inv fulfilled det

/-- Lines 638-642 of `_evaluate_group`: the group multiplier, defaulting to
`1.0` when the `number` field is `None`/`""` or `float(...)` fails on it. -/
def base_requirement (group : BindingGroup) : ℚ :=
  match group.number with
  | PyNum.none => 1
  | PyNum.num q => q
  | PyNum.unparsable => 1

/-- `ExcelProcessor._evaluate_group` (lines 630-718).  Returns the
`RequirementGroupResult` and the updated inventory pool (mutated in place in
the source). -/
def evaluate_group (group : BindingGroup) (project_qty : ℚ) (inv : String → ℚ)
    (ref : List (String × ℚ)) (disp : List (String × String)) :
    RequirementGroupResult × (String → ℚ) :=
  let required_qty := project_qty * base_requirement group
  let pass := applicable_pass group ref inv
  if pass.enabled = false then
    (⟨group.group_name, 0, 0, 0, [], []⟩, inv)
  else
    let sorted := List.insertionSort alloc_le pass.applicable
    let out := alloc_loop disp required_qty sorted inv 0 []
    let missing_qty := max (required_qty - out.2.1) 0
    let mc0 : List String :=
      if (pass.first.getD "") ≠ "" then [pass.first.getD ""]
      else
        match pass.fallback with
        | f :: _ => [f]
        | [] => []
    let missing_choices :=
      if 0 < missing_qty then
        (if mc0 = [] then
          group.choices.filterMap (fun c => if c.part_no ≠ "" then some c.part_no else Option.none)
        else mc0)
      else []
    (⟨group.group_name, required_qty, pass.available_qty, missing_qty,
      missing_choices, out.2.2⟩, out.1)

/-- `ExcelProcessor._lookup_choice_desc`. -/
def lookup_choice_desc (group : BindingGroup) (part_no : String) : String :=
  ((group.choices.find? (fun c => c.part_no = part_no && c.desc ≠ "")).map
    (fun c => c.desc)).getD ""

/-- Python `a or b` where `a` is an optional string (`None` and `""` are
falsy). -/
def py_or_str (a : Option String) (b : String) : String :=
  match a with
  | some s => if s = "" then b else s
  | Option.none => b

/-- `used_parts.add(k)` on a set modelled as a duplicate-free list. -/
def insert_used (used : List String) (k : String) : List String :=
  if used.contains k then used else used ++ [k]

/-- The `missing_items.setdefault(...)` block of
`_evaluate_binding_requirements` (lines 608-614) for one missing part:
create the entry on first sight, backfill an empty description, and
accumulate `missing_qty`. -/
def update_missing (m : List (String × MissingItem)) (key display desc : String)
    (q : ℚ) : List (String × MissingItem) :=
  match m with
  | [] => [(key, ⟨display, desc, 0 + q⟩)]
  | (k, it) :: rest =>
      if k = key then
        (k, { it with
              desc := if it.desc = "" ∧ desc ≠ "" then desc else it.desc
              missing_qty := it.missing_qty + q }) :: rest
      else (k, it) :: update_missing rest key display desc q

/-- The `for part_no in result.missing_choices` loop of
`_evaluate_binding_requirements` (lines 604-614). -/
def apply_missing (group : BindingGroup) (descm dispm : List (String × String))
    (r : RequirementGroupResult) (m : List (String × MissingItem)) :
    List (String × MissingItem) :=
  r.missing_choices.foldl
    (fun acc part_no =>
      let part_key := normalize_part_no part_no
      let description := py_or_str (descm.lookup part_key) (lookup_choice_desc group part_no)
      let display_no := (dispm.lookup part_key).getD part_no
      update_missing acc part_key display_no description r.missing_qty)
    m

/-- State threaded through the `for group in project.required_groups` loop of
`_evaluate_binding_requirements`. -/
structure GroupsState where
  grs : List RequirementGroupResult
  missing : List (String × MissingItem)
  used : List String
  inv : String → ℚ

/-- Body of the group loop of `_evaluate_binding_requirements`
(lines 593-617): evaluate the group, record missing items when
`missing_qty > 0`, and mark every matched part as used. -/
def eval_group_step (pq : List (String × ℚ)) (descm dispm : List (String × String))
    (cq : ℚ) (st : GroupsState) (group : BindingGroup) : GroupsState :=
  let out := evaluate_group group cq st.inv pq dispm
  let r := out.1
  let missing' := if 0 < r.missing_qty then apply_missing group descm dispm r st.missing else st.missing
  let used' := (r.matched_details.map Prod.fst).foldl
    (fun u d => insert_used u (normalize_part_no d)) st.used
  ⟨st.grs ++ [r], missing', used', out.2⟩

/-- The group loop of `_evaluate_binding_requirements` over all groups of a
project, in declared order. -/
def eval_groups (pq : List (String × ℚ)) (descm dispm : List (String × String))
    (cq : ℚ) (groups : List BindingGroup) (st : GroupsState) : GroupsState :=
  groups.foldl (eval_group_step pq descm dispm cq) st

/-- State threaded through the project loop of
`_evaluate_binding_requirements`. -/
structure EvalState where
  results : List BindingProjectResult
  missing : List (String × MissingItem)
  used : List String
  inv : String → ℚ

/-- Body of the `for project in binding_library.iter_projects()` loop
(lines 574-626): skip when the aggregated total or the pool balance of the
index part is `≤ 0`; otherwise consume `min(aggregated, pool)` of the index
part, mark it used, evaluate every group and emit a
`BindingProjectResult`. -/
def eval_project (pq : List (String × ℚ)) (descm dispm : List (String × String))
    (st : EvalState) (project : BindingProject) : EvalState :=
  let index_key := normalize_part_no project.index_part_no
  let project_qty := getQ pq index_key
  if project_qty ≤ 0 then st
  else
    let available_index_qty := st.inv index_key
    if available_index_qty ≤ 0 then st
    else
      let consumption_qty := min project_qty available_index_qty
      let inv1 := upd_inv st.inv index_key (max (available_index_qty - consumption_qty) 0)
      let used1 := insert_used st.used index_key
      let g := eval_groups pq descm dispm consumption_qty project.required_groups
        ⟨[], st.missing, used1, inv1⟩
      { results := st.results ++
          [⟨project.project_desc, project.index_part_no, consumption_qty, g.grs⟩]
        missing := g.missing
        used := g.used
        inv := g.inv }

/-- `ExcelProcessor._evaluate_binding_requirements` (lines 561-628), with the
pool initialised by the caller (`execute` passes
`defaultdict(float, part_quantities)`).  The debug log, which carries no
engine state, is not modelled. -/
def evaluate_binding_requirements (pq : List (String × ℚ)) (inv : String → ℚ)
    (descm dispm : List (String × String)) (projects : List BindingProject) :
    EvalState :=
  projects.foldl (eval_project pq descm dispm) ⟨[], [], [], inv⟩

/-! ### Invalid-part replacement stage (`_apply_replacements` and helpers) -/

/-- An openpyxl cell as far as this stage observes it: its value and its fill
(`fill_type`, `start_color.rgb`). -/
structure PCell where
  value : CellValue
  fill_type : Option String
  fill_rgb : Option String
  deriving DecidableEq

/-- One row of the invalid-part directory
(`invalid_no, invalid_desc, replacement_no?, replacement_desc?`). -/
structure InvalidEntry where
  invalid_no : String
  invalid_desc : String
  replacement_no : Option String
  replacement_desc : Option String
  deriving DecidableEq

/-- Python truthiness of a cell value (`if not value: ...`). -/
def py_truthy (v : CellValue) : Bool :=
  match v with
  | CellValue.none => false
  | CellValue.str s => s ≠ ""
  | CellValue.num q => q ≠ 0
  | CellValue.bool b => b
  | CellValue.nan => true

/-- `value in (None, "")` (equality-based membership). -/
def is_none_or_empty (v : CellValue) : Bool :=
  v = CellValue.none || v = CellValue.str ""

/-- `excel_processor._is_black_fill`. -/
def is_black_fill (c : PCell) : Bool :=
  if c.fill_type ≠ some "solid" then false
  else
    let rgb := py_upper (c.fill_rgb.getD "")
    rgb = "000000" || rgb = "FF000000"

/-- `excel_processor._row_has_non_black_value`. -/
def row_has_non_black_value (row : List PCell) (ignore_idx : ℕ) : Bool :=
  row.enum.any (fun p =>
    p.1 ≠ ignore_idx && !is_none_or_empty p.2.value && !is_black_fill p.2)

/-- `excel_processor._row_contains_part`. -/
def row_contains_part (row : List PCell) (ignore_idx : ℕ) (part_no : String) : Bool :=
  if part_no = "" then false
  else
    let normalized_target := normalize_part_no part_no
    row.enum.any (fun p =>
      p.1 ≠ ignore_idx && py_truthy p.2.value &&
        normalize_part_no (py_str p.2.value) = normalized_target)

/-- `ExcelProcessor._row_already_replaced` (lines 286-300); `replacement_no`
is falsy when `None` or empty. -/
def row_already_replaced (row : List PCell) (part_col_idx : ℕ) (part_cell : PCell)
    (replacement_no : Option String) : Bool :=
  let repl_truthy := (replacement_no.getD "") ≠ ""
  if repl_truthy && row_contains_part row part_col_idx (replacement_no.getD "") then true
  else if is_black_fill part_cell then
    if row_has_non_black_value row part_col_idx then true
    else if !repl_truthy then true
    else false
  else false

/-- The per-row body of `_apply_replacements` after an invalid-part match
(lines 252-278).  The "already replaced" branch executes
`summary.total_invalid_previously_marked += 1` (line 254); `models.py`'s
`ReplacementSummary` (lines 17-21) declares no such attribute, so in Python
that statement raises `AttributeError`, modelled as `Except.error`.
Otherwise the whole row is black-filled, a replacement (when present) is
appended in trailing cells and counted, and a record is appended. -/
def apply_replacement_row (summary : ReplacementSummary) (sheet : String)
    (row_idx : ℕ) (row : List PCell) (part_col_idx : ℕ) (entry : InvalidEntry) :
    Except String (ReplacementSummary × List PCell × List CellValue) :=
  let s1 := { summary with total_invalid_found := summary.total_invalid_found + 1 }
  let part_cell := row.getD part_col_idx ⟨CellValue.none, Option.none, Option.none⟩
  if row_already_replaced row part_col_idx part_cell entry.replacement_no then
    Except.error "AttributeError: ReplacementSummary has no attribute total_invalid_previously_marked"
  else
    let row2 := row.map (fun c => { c with fill_type := some "solid", fill_rgb := some "000000" })
    let repl_truthy := (entry.replacement_no.getD "") ≠ ""
    let s2 := if repl_truthy then { s1 with total_replaced := s1.total_replaced + 1 } else s1
    let appended : List CellValue :=
      if repl_truthy then
        [CellValue.str (entry.replacement_no.getD ""),
         match entry.replacement_desc with
         | some d => CellValue.str d
         | Option.none => CellValue.none]
      else []
    let s3 := { s2 with records := s2.records ++
        [⟨entry.invalid_no, entry.invalid_desc, entry.replacement_no,
          entry.replacement_desc, sheet, row_idx⟩] }
    Except.ok (s3, row2, appended)

/-! ### Quantity parsing and aggregation (`_parse_quantity_value`,
`_extract_part_quantities`) -/

/-- Value of `[c]` digits as a natural number. -/
def digits_to_nat (l : List Char) : ℕ :=
  l.foldl (fun n c => 10 * n + (c.toNat - 48)) 0

/-- Try to match the regex `[-+]?\d+(?:\.\d+)?` anchored at the head of `l`,
returning the matched rational. -/
def match_num_at (l : List Char) : Option ℚ :=
  let (sign, rest) :=
    match l with
    | c :: t => if c = '-' then ((-1 : ℚ), t) else if c = '+' then ((1 : ℚ), t) else (1, l)
    | [] => (1, l)
  let digits := rest.takeWhile Char.isDigit
  if digits = [] then Option.none
  else
    let after := rest.drop digits.length
    let frac :=
      match after with
      | '.' :: t =>
          let fd := t.takeWhile Char.isDigit
          if fd = [] then [] else fd
      | _ => []
    some (sign * ((digits_to_nat digits : ℚ) +
      (digits_to_nat frac : ℚ) / (10 : ℚ) ^ frac.length))

/-- `re.search(r"[-+]?\d+(?:\.\d+)?", s)` followed by `float(...)`: the
leftmost match of the numeric-token pattern. -/
def find_num_token : List Char → Option ℚ
  | [] => Option.none
  | c :: t =>
      match match_num_at (c :: t) with
      | some q => some q
      | Option.none => find_num_token t

/-- `ExcelProcessor._parse_quantity_value` (lines 502-525): `None`/`""` and
NaN parse to nothing, booleans to 0/1, numbers to themselves; strings are
stripped, have their commas removed, and yield their first embedded numeric
token, if any. -/
def parse_quantity_value (v : CellValue) : Option ℚ :=
  if is_none_or_empty v then Option.none
  else
    match v with
    | CellValue.bool b => some (if b then 1 else 0)
    | CellValue.num q => some q
    | CellValue.nan => Option.none
    | CellValue.str s =>
        let text := py_strip s
        if text = "" then Option.none
        else find_num_token (text.data.filter (fun c => c ≠ ','))
    | CellValue.none => Option.none

/-- Lines 411-421 of `_extract_part_quantities`: the quantity contributed by
one row (`Option.none` models a row without an identified quantity cell) and
whether an unparsable-quantity diagnostic is logged. -/
def row_quantity (qty_cell : Option CellValue) : ℚ × Bool :=
  match qty_cell with
  | Option.none => (1, false)
  | some v =>
      match parse_quantity_value v with
      | some q => (q, false)
      | Option.none => (0, true)

/-- `part_quantities[normalized_part] += quantity` on the aggregation dict. -/
def accumulate_qty (m : List (String × ℚ)) (k : String) (q : ℚ) :
    List (String × ℚ) :=
  match m with
  | [] => [(k, 0 + q)]
  | (k0, v) :: rest =>
      if k0 = k then (k0, v + q) :: rest else (k0, v) :: accumulate_qty rest k q

/-! ### Quantity-column inference (`_identify_quantity_column`) -/

/-- `math.isclose(a, b)` with `abs_tol=1e-6` and the default
`rel_tol=1e-9`. -/
def isclose (a b : ℚ) : Bool :=
  decide (|a - b| ≤ max ((1 / 1000000000) * max |a| |b|) (1 / 1000000))

/-- One entry of the `numeric_scores` list:
`(col_idx, integer_count, numeric_count, failure_count, total_count)`. -/
structure ColScore where
  col : ℕ
  int_c : ℕ
  num_c : ℕ
  fail_c : ℕ
  total_c : ℕ
  deriving DecidableEq

/-- The order realised by
`scores.sort(key=lambda item: (-item[1], -item[2], item[3], item[0]))`. -/
def score_le (a b : ColScore) : Prop :=
  b.int_c < a.int_c ∨ (a.int_c = b.int_c ∧
    (b.num_c < a.num_c ∨ (a.num_c = b.num_c ∧
      (a.fail_c < b.fail_c ∨ (a.fail_c = b.fail_c ∧ a.col ≤ b.col)))))

instance : DecidableRel score_le := fun a b => by
  unfold score_le; infer_instance

instance : IsTotal ColScore score_le := by
  constructor
  intro a b
  unfold score_le
  omega

instance : IsTrans ColScore score_le := by
  constructor
  intro a b c hab hbc
  unfold score_le at hab hbc ⊢
  omega

/-- A worksheet as the values-only row matrix openpyxl iterates
(`ws.iter_rows(values_only=True)`); the first row is the header row. -/
def Worksheet := List (List CellValue)

/-- `ws.max_column`. -/
def max_column (ws : Worksheet) : ℕ :=
  ws.foldl (fun m r => max m r.length) 0

/-- The values of column `i` over the data rows (`min_row=2`), with `None`
for cells a short row does not reach. -/
def col_values (ws : Worksheet) (i : ℕ) : List CellValue :=
  (ws.drop 1).map (fun r => r.getD i CellValue.none)

/-- The counting loop of `_identify_quantity_column` (lines 456-476) over one
column's data cells. -/
def score_col (i : ℕ) (vals : List CellValue) : ColScore :=
  vals.foldl
    (fun sc v =>
      if is_none_or_empty v then sc
      else
        let sc := { sc with total_c := sc.total_c + 1 }
        match parse_quantity_value v with
        | Option.none => { sc with fail_c := sc.fail_c + 1 }
        | some parsed =>
            let sc := { sc with num_c := sc.num_c + 1 }
            if isclose parsed ((round parsed : ℤ) : ℚ) then
              { sc with int_c := sc.int_c + 1 }
            else sc)
    ⟨i, 0, 0, 0, 0⟩

/-- `numeric_scores` (lines 452-480): one score per column with at least one
parseable value, skipping the first two columns. -/
def numeric_scores (ws : Worksheet) : List ColScore :=
  (List.range (max_column ws)).filterMap
    (fun i =>
      if i < 2 then Option.none
      else
        let sc := score_col i (col_values ws i)
        if 0 < sc.num_c then some sc else Option.none)

/-- `_select_best` (lines 482-489). -/
def select_best (scores : List ColScore) : Option ℕ :=
  (List.insertionSort score_le scores).head?.map (fun sc => sc.col)

/-- The quantity-keyword scan of the header row (lines 437-449). -/
def header_candidates (ws : Worksheet) : List ℕ :=
  match ws.head? with
  | Option.none => []
  | some header_row =>
      header_row.enum.filterMap (fun p =>
        if p.1 < 2 then Option.none
        else if is_none_or_empty p.2 then Option.none
        else
          let lowered := py_lower (py_strip (py_str p.2))
          if lowered = "" then Option.none
          else if ["数量", "數量", "qty", "quantity"].any (fun kw => substr_b kw lowered)
          then some p.1
          else Option.none)

/-- `ExcelProcessor._identify_quantity_column` (lines 427-500). -/
def identify_quantity_column (ws : Worksheet) : Option ℕ :=
  let hc := header_candidates ws
  let ns := numeric_scores ws
  match hc with
  | [] => select_best ns
  | h :: _ =>
      match select_best (ns.filter (fun sc => hc.contains sc.col)) with
      | some i => some i
      | Option.none => some h

/-! ### Fuzzy variant matching (`_variants_match`) -/

/-- The inner loop of `_variants_match`: scan the value variants for one
keyword variant. -/
def variants_match_inner (kv : String) : List String → Bool
  | [] => false
  | vv :: rest =>
      if vv = "" then variants_match_inner kv rest
      else if substr_b kv vv || substr_b vv kv then true
      else variants_match_inner kv rest

/-- The outer loop of `_variants_match`. -/
def variants_match_outer : List String → List String → Bool
  | [], _ => false
  | kv :: rest, vvs =>
      if kv = "" then variants_match_outer rest vvs
      else if variants_match_inner kv vvs then true
      else variants_match_outer rest vvs

/-- `ExcelProcessor._variants_match` (lines 943-954); the Python sets of
variants are modelled as lists (only membership matters). -/
def variants_match (keyword_variants value_variants : List String) : Bool :=
  if keyword_variants.isEmpty || value_variants.isEmpty then false
  else variants_match_outer keyword_variants value_variants

/-! ### Remainder calculation (`execute` line 185 and
`_write_result_sheets` lines 924-933) -/

/-- `remainder_keys = (set(part_quantities.keys()) - used_part_numbers) |
important_part_numbers` (line 185), modelled as a list with set
membership. -/
def remainder_keys (pq : List (String × ℚ)) (used imp : List String) :
    List String :=
  let not_used := (pq.map Prod.fst).filter (fun k => !used.contains k)
  not_used ++ imp.filter (fun k => !not_used.contains k)

/-- The order realised by
`sorted(remainder_keys, key=lambda k: part_display.get(k, k))`. -/
def disp_le (dispm : List (String × String)) (a b : String) : Prop :=
  ((dispm.lookup a).getD a) ≤ ((dispm.lookup b).getD b)

instance (dispm : List (String × String)) : DecidableRel (disp_le dispm) :=
  fun a b => by unfold disp_le; infer_instance

/-- The `剩余物料` sheet rows (lines 924-933): for each remainder key, its
display text, description and `part_quantities.get(key, 0.0)` — the
aggregation map, not the depleted pool. -/
def remainder_rows (pq : List (String × ℚ)) (descm dispm : List (String × String))
    (keys : List String) : List (String × String × ℚ) :=
  (List.insertionSort (disp_le dispm) keys).map
    (fun k => ((dispm.lookup k).getD k, (descm.lookup k).getD "", getQ pq k))

/-- Total quantity recorded in a `matched_details` dict. -/
def sum_det (det : List (String × ℚ)) : ℚ :=
  (det.map Prod.snd).sum

/-- Relation between a pool balance before and after a run of consumptions:
either untouched, or strictly decreased to a non-negative value (so nothing
ever consumes more than the available balance, and no balance is driven
negative). -/
def pool_step (before after : ℚ) : Prop :=
  after = before ∨ (0 ≤ after ∧ after < before)

end BomCheck

namespace BomCheck

/-! ### Helper lemmas -/

theorem pool_step_refl (x : ℚ) : pool_step x x := Or.inl rfl

theorem pool_step_trans {x y z : ℚ} (h1 : pool_step x y) (h2 : pool_step y z) :
    pool_step x z := by
  rcases h1 with h1 | ⟨h1a, h1b⟩
  · subst h1; exact h2
  · rcases h2 with h2 | ⟨h2a, h2b⟩
    · exact Or.inr ⟨h2 ▸ h1a, h2 ▸ h1b⟩
    · exact Or.inr ⟨h2a, h2b.trans h1b⟩

theorem sum_det_add_detail (det : List (String × ℚ)) (k : String) (q : ℚ) :
    sum_det (add_detail det k q) = sum_det det + q := by
  induction det with
  | nil => simp [add_detail, sum_det]
  | cons p rest ih =>
      obtain ⟨d, v⟩ := p
      by_cases h : d = k
      · simp [add_detail, h, sum_det]; ring
      · simp [add_detail, h, sum_det] at ih ⊢
        rw [ih]; ring

theorem alloc_loop_sum (disp : List (String × String)) (req : ℚ) :
    ∀ (l : List AppChoice) (inv : String → ℚ) (ful : ℚ) (det : List (String × ℚ)),
      sum_det (alloc_loop disp req l inv ful det).2.2
        = sum_det det + ((alloc_loop disp req l inv ful det).2.1 - ful) := by
  intro l
  induction l with
  | nil => intro inv ful det; simp [alloc_loop]
  | cons c rest ih =>
      intro inv ful det
      simp only [alloc_loop]
      by_cases h1 : max (req - ful) 0 ≤ 0
      · simp only [if_pos h1]; simp
      · simp only [if_neg h1]
        by_cases h2 : max (inv c.key) 0 ≤ 0
        · simp only [if_pos h2]; exact ih inv ful det
        · simp only [if_neg h2]
          by_cases h3 : min (max (inv c.key) 0) (max (req - ful) 0) ≤ 0
          · simp only [if_pos h3]; exact ih inv ful det
          · simp only [if_neg h3]
            rw [ih, sum_det_add_detail]
            ring

theorem alloc_loop_eq_spec (disp : List (String × String)) (req : ℚ) :
    ∀ (l : List AppChoice) (inv : String → ℚ) (ful : ℚ) (det : List (String × ℚ)),
      alloc_loop disp req l inv ful det = spec_alloc_walk disp req l inv ful det := by
  intro l
  induction l with
  | nil => intro inv ful det; rfl
  | cons c rest ih =>
      intro inv ful det
      simp only [alloc_loop, spec_alloc_walk]
      by_cases h : req ≤ ful
      · have h1 : max (req - ful) 0 ≤ 0 := by
          rw [max_le_iff]; exact ⟨by linarith, le_refl 0⟩
        rw [if_pos h1, if_pos h]
      · have hlt : ful < req := lt_of_not_le h
        have hrem : max (req - ful) 0 = req - ful := max_eq_left (by linarith)
        have h1 : ¬ max (req - ful) 0 ≤ 0 := by rw [hrem]; intro hc; linarith
        rw [if_neg h1, if_neg h]
        by_cases h2 : inv c.key ≤ 0
        · have hcur : max (inv c.key) 0 = 0 := max_eq_right h2
          have htake : ¬ 0 < min (inv c.key) (req - ful) := by
            intro hc
            exact absurd (lt_of_lt_of_le hc (min_le_left _ _)) (not_lt.mpr h2)
          rw [if_pos (le_of_eq hcur), if_neg htake]
          exact ih inv ful det
        · have hpos : 0 < inv c.key := lt_of_not_le h2
          have hcur : max (inv c.key) 0 = inv c.key := max_eq_left (le_of_lt hpos)
          simp only [hcur, hrem]
          rw [if_neg h2]
          have hspec : 0 < min (inv c.key) (req - ful) := lt_min hpos (by linarith)
          rw [if_neg (not_le.mpr hspec), if_pos hspec]
          have harg : max (inv c.key - min (inv c.key) (req - ful)) 0
              = inv c.key - min (inv c.key) (req - ful) :=
            max_eq_left (by
              have := min_le_left (inv c.key) (req - ful); linarith)
          rw [harg]
          exact ih _ _ _

theorem alloc_loop_pool (disp : List (String × String)) (req : ℚ) :
    ∀ (l : List AppChoice) (inv : String → ℚ) (ful : ℚ) (det : List (String × ℚ))
      (k : String), pool_step (inv k) ((alloc_loop disp req l inv ful det).1 k) := by
  intro l
  induction l with
  | nil => intro inv ful det k; exact pool_step_refl _
  | cons c rest ih =>
      intro inv ful det k
      simp only [alloc_loop]
      by_cases h1 : max (req - ful) 0 ≤ 0
      · simp only [if_pos h1]; exact pool_step_refl _
      · simp only [if_neg h1]
        by_cases h2 : max (inv c.key) 0 ≤ 0
        · simp only [if_pos h2]; exact ih inv ful det k
        · simp only [if_neg h2]
          by_cases h3 : min (max (inv c.key) 0) (max (req - ful) 0) ≤ 0
          · simp only [if_pos h3]; exact ih inv ful det k
          · simp only [if_neg h3]
            refine pool_step_trans ?_ (ih _ _ _ k)
            have hpos : 0 < inv c.key := by
              by_contra hc
              exact h2 (le_of_eq (max_eq_right (not_lt.mp hc)))
            have hcur : max (inv c.key) 0 = inv c.key := max_eq_left (le_of_lt hpos)
            have htake : 0 < min (max (inv c.key) 0) (max (req - ful) 0) := lt_of_not_le h3
            have htakele : min (max (inv c.key) 0) (max (req - ful) 0) ≤ inv c.key := by
              rw [hcur]; exact min_le_left _ _
            by_cases hk : k = c.key
            · subst hk
              unfold upd_inv
              rw [if_pos rfl]
              rw [hcur] at htake htakele
              have h4 := min_le_left (inv c.key) (max (req - ful) 0)
              right
              refine ⟨le_max_right _ 0, ?_⟩
              rw [hcur, max_eq_left (by linarith)]
              linarith
            · unfold upd_inv
              rw [if_neg hk]
              exact pool_step_refl _

theorem evaluate_group_pool (g : BindingGroup) (pq : ℚ) (inv : String → ℚ)
    (ref : List (String × ℚ)) (disp : List (String × String)) (k : String) :
    pool_step (inv k) ((evaluate_group g pq inv ref disp).2 k) := by
  unfold evaluate_group
  by_cases h : (applicable_pass g ref inv).enabled = false
  · simp only [if_pos h]
    exact pool_step_refl _
  · simp only [if_neg h]
    exact alloc_loop_pool _ _ _ _ _ _ _

theorem eval_groups_pool (pq : List (String × ℚ)) (descm dispm : List (String × String))
    (cq : ℚ) :
    ∀ (groups : List BindingGroup) (st : GroupsState) (k : String),
      pool_step (st.inv k) ((eval_groups pq descm dispm cq groups st).inv k) := by
  intro groups
  induction groups with
  | nil => intro st k; exact pool_step_refl _
  | cons g rest ih =>
      intro st k
      have h1 : pool_step (st.inv k) ((eval_group_step pq descm dispm cq st g).inv k) := by
        unfold eval_group_step
        exact evaluate_group_pool g cq st.inv pq dispm k
      exact pool_step_trans h1 (ih _ k)

theorem eval_project_pool (pq : List (String × ℚ)) (descm dispm : List (String × String))
    (st : EvalState) (project : BindingProject) (k : String) :
    pool_step (st.inv k) ((eval_project pq descm dispm st project).inv k) := by
  unfold eval_project
  by_cases h1 : getQ pq (normalize_part_no project.index_part_no) ≤ 0
  · simp only [if_pos h1]; exact pool_step_refl _
  · simp only [if_neg h1]
    by_cases h2 : st.inv (normalize_part_no project.index_part_no) ≤ 0
    · simp only [if_pos h2]; exact pool_step_refl _
    · simp only [if_neg h2]
      have hpq : 0 < getQ pq (normalize_part_no project.index_part_no) := lt_of_not_le h1
      have hai : 0 < st.inv (normalize_part_no project.index_part_no) := lt_of_not_le h2
      set n := normalize_part_no project.index_part_no with hn
      refine pool_step_trans (y := (upd_inv st.inv n
        (max (st.inv n - min (getQ pq n) (st.inv n)) 0)) k) ?_ ?_
      · unfold upd_inv
        by_cases hk : k = n
        · rw [if_pos hk, hk]
          have hmin : min (getQ pq n) (st.inv n) ≤ st.inv n := min_le_right _ _
          have hminpos : 0 < min (getQ pq n) (st.inv n) := lt_min hpq hai
          right
          refine ⟨le_max_right _ 0, ?_⟩
          rw [max_eq_left (by linarith)]
          linarith
        · rw [if_neg hk]; exact pool_step_refl _
      · exact eval_groups_pool pq descm dispm _ project.required_groups _ k

theorem evaluate_binding_requirements_pool (pq : List (String × ℚ)) (inv : String → ℚ)
    (descm dispm : List (String × String)) (projects : List BindingProject) (k : String) :
    pool_step (inv k) ((evaluate_binding_requirements pq inv descm dispm projects).inv k) := by
  unfold evaluate_binding_requirements
  suffices h : ∀ (l : List BindingProject) (st : EvalState) (k : String),
      pool_step (st.inv k) ((l.foldl (eval_project pq descm dispm) st).inv k) by
    exact h projects ⟨[], [], [], inv⟩ k
  intro l
  induction l with
  | nil => intro st k; exact pool_step_refl _
  | cons p rest ih =>
      intro st k
      exact pool_step_trans (eval_project_pool pq descm dispm st p k) (ih _ k)

theorem applicable_pass_aux_no_applicable (ref : List (String × ℚ)) (inv : String → ℚ) :
    ∀ (l : List BindingChoice) (i : ℕ) (acc : PassAcc),
      (∀ c ∈ l, c.part_no = "" ∨ choice_condition_met c ref = false) →
      applicable_pass_aux ref inv i l acc = acc := by
  intro l
  induction l with
  | nil => intro i acc _; rfl
  | cons c rest ih =>
      intro i acc h
      have hc := h c (List.mem_cons_self c rest)
      have hstep : pass_step ref inv i c acc = acc := by
        unfold pass_step
        rcases hc with hc | hc
        · rw [if_pos hc]
        · by_cases hc0 : c.part_no = ""
          · rw [if_pos hc0]
          · rw [if_neg hc0, hc]
            simp
      unfold applicable_pass_aux
      rw [hstep]
      exact ih (i + 1) acc (fun x hx => h x (List.mem_cons_of_mem c hx))

theorem insert_used_self (u : List String) (k : String) : k ∈ insert_used u k := by
  unfold insert_used
  by_cases h : u.contains k
  · rw [if_pos h]
    exact List.mem_of_elem_eq_true h
  · rw [if_neg h]
    exact List.mem_append_right _ (List.mem_singleton.mpr rfl)

theorem insert_used_mono {u : List String} {k : String} (k2 : String) (h : k ∈ u) :
    k ∈ insert_used u k2 := by
  unfold insert_used
  by_cases h2 : u.contains k2
  · rw [if_pos h2]; exact h
  · rw [if_neg h2]; exact List.mem_append_left _ h

theorem foldl_insert_used_mono {k : String} :
    ∀ (l : List String) (u : List String), k ∈ u →
      k ∈ l.foldl (fun u d => insert_used u (normalize_part_no d)) u := by
  intro l
  induction l with
  | nil => intro u h; exact h
  | cons d rest ih =>
      intro u h
      exact ih _ (insert_used_mono _ h)

theorem eval_groups_used_mono (pq : List (String × ℚ)) (descm dispm : List (String × String))
    (cq : ℚ) {k : String} :
    ∀ (groups : List BindingGroup) (st : GroupsState), k ∈ st.used →
      k ∈ (eval_groups pq descm dispm cq groups st).used := by
  intro groups
  induction groups with
  | nil => intro st h; exact h
  | cons g rest ih =>
      intro st h
      refine ih _ ?_
      unfold eval_group_step
      exact foldl_insert_used_mono _ _ h

theorem score_le_refl (a : ColScore) : score_le a a := by
  unfold score_le; omega

theorem select_best_min (scores : List ColScore) (b : ℕ)
    (h : select_best scores = some b) :
    ∃ sc, sc ∈ scores ∧ sc.col = b ∧ ∀ s ∈ scores, score_le sc s := by
  unfold select_best at h
  cases hs : List.insertionSort score_le scores with
  | nil => rw [hs] at h; simp at h
  | cons sc t =>
      rw [hs] at h
      simp only [List.head?, Option.map_some] at h
      have hb : sc.col = b := by
        injection h
      have hperm : (List.insertionSort score_le scores).Perm scores :=
        List.perm_insertionSort score_le scores
      have hmem : sc ∈ scores := by
        rw [← hperm.mem_iff, hs]
        exact List.mem_cons_self sc t
      refine ⟨sc, hmem, hb, ?_⟩
      intro s hsmem
      have hsorted : List.Sorted score_le (List.insertionSort score_le scores) :=
        List.sorted_insertionSort score_le scores
      rw [hs] at hsorted
      have hs2 : s ∈ sc :: t := by
        rw [← hs, hperm.mem_iff]
        exact hsmem
      rcases List.mem_cons.mp hs2 with rfl | hs3
      · exact score_le_refl s
      · exact List.rel_of_sorted_cons hsorted s hs3

theorem substr_b_iff (a b : String) : substr_b a b = true ↔ a.data <:+: b.data := by
  unfold substr_b
  exact decide_eq_true_iff

theorem variants_match_inner_iff (kv : String) :
    ∀ (vvs : List String),
      variants_match_inner kv vvs = true
        ↔ ∃ vv ∈ vvs, vv ≠ "" ∧ (kv.data <:+: vv.data ∨ vv.data <:+: kv.data) := by
  intro vvs
  induction vvs with
  | nil => simp [variants_match_inner]
  | cons vv rest ih =>
      unfold variants_match_inner
      by_cases h1 : vv = ""
      · rw [if_pos h1, ih]
        subst h1
        constructor
        · rintro ⟨v, hv, hne, hsub⟩
          exact ⟨v, List.mem_cons_of_mem _ hv, hne, hsub⟩
        · rintro ⟨v, hv, hne, hsub⟩
          rcases List.mem_cons.mp hv with rfl | hv2
          · exact absurd rfl hne
          · exact ⟨v, hv2, hne, hsub⟩
      · rw [if_neg h1]
        by_cases h2 : substr_b kv vv || substr_b vv kv
        · rw [if_pos h2]
          simp only [true_iff]
          refine ⟨vv, List.mem_cons_self _ _, h1, ?_⟩
          rcases Bool.or_eq_true_iff.mp h2 with h3 | h3
          · exact Or.inl ((substr_b_iff _ _).mp h3)
          · exact Or.inr ((substr_b_iff _ _).mp h3)
        · rw [if_neg h2, ih]
          constructor
          · rintro ⟨v, hv, hne, hsub⟩
            exact ⟨v, List.mem_cons_of_mem _ hv, hne, hsub⟩
          · rintro ⟨v, hv, hne, hsub⟩
            rcases List.mem_cons.mp hv with rfl | hv2
            · exfalso
              apply h2
              rcases hsub with h3 | h3
              · exact Bool.or_eq_true_iff.mpr (Or.inl ((substr_b_iff _ _).mpr h3))
              · exact Bool.or_eq_true_iff.mpr (Or.inr ((substr_b_iff _ _).mpr h3))
            · exact ⟨v, hv2, hne, hsub⟩

theorem variants_match_outer_iff :
    ∀ (kvs vvs : List String),
      variants_match_outer kvs vvs = true
        ↔ ∃ kv ∈ kvs, kv ≠ "" ∧ ∃ vv ∈ vvs, vv ≠ "" ∧
            (kv.data <:+: vv.data ∨ vv.data <:+: kv.data) := by
  intro kvs
  induction kvs with
  | nil => intro vvs; simp [variants_match_outer]
  | cons kv rest ih =>
      intro vvs
      unfold variants_match_outer
      by_cases h1 : kv = ""
      · rw [if_pos h1, ih]
        subst h1
        constructor
        · rintro ⟨k, hk, hne, hsub⟩
          exact ⟨k, List.mem_cons_of_mem _ hk, hne, hsub⟩
        · rintro ⟨k, hk, hne, hsub⟩
          rcases List.mem_cons.mp hk with rfl | hk2
          · exact absurd rfl hne
          · exact ⟨k, hk2, hne, hsub⟩
      · rw [if_neg h1]
        by_cases h2 : variants_match_inner kv vvs
        · rw [if_pos h2]
          simp only [true_iff]
          obtain ⟨vv, hvv, hne, hsub⟩ := (variants_match_inner_iff kv vvs).mp h2
          exact ⟨kv, List.mem_cons_self _ _, h1, vv, hvv, hne, hsub⟩
        · rw [if_neg h2, ih]
          constructor
          · rintro ⟨k, hk, hne, hsub⟩
            exact ⟨k, List.mem_cons_of_mem _ hk, hne, hsub⟩
          · rintro ⟨k, hk, hne, hsub⟩
            rcases List.mem_cons.mp hk with rfl | hk2
            · exfalso
              apply h2
              exact (variants_match_inner_iff k vvs).mpr hsub
            · exact ⟨k, hk2, hne, hsub⟩

theorem evaluate_group_zero_of_no_applicable (g : BindingGroup) (pqv : ℚ)
    (inv : String → ℚ) (ref : List (String × ℚ)) (disp : List (String × String))
    (h : ∀ c ∈ g.choices, c.part_no = "" ∨ choice_condition_met c ref = false) :
    evaluate_group g pqv inv ref disp = (⟨g.group_name, 0, 0, 0, [], []⟩, inv) := by
  have hp : applicable_pass g ref inv = ⟨[], 0, [], Option.none, false⟩ := by
    unfold applicable_pass
    exact applicable_pass_aux_no_applicable ref inv g.choices 0 _ h
  unfold evaluate_group
  rw [hp]
  rfl

theorem eval_groups_missing_no_applicable (pq : List (String × ℚ))
    (descm dispm : List (String × String)) (cq : ℚ) :
    ∀ (groups : List BindingGroup) (st : GroupsState),
      (∀ g ∈ groups, ∀ c ∈ g.choices, c.part_no = "" ∨ choice_condition_met c pq = false) →
      (eval_groups pq descm dispm cq groups st).missing = st.missing := by
  intro groups
  induction groups with
  | nil => intro st _; rfl
  | cons g rest ih =>
      intro st h
      have hg := evaluate_group_zero_of_no_applicable g cq st.inv pq dispm
        (h g (List.mem_cons_self g rest))
      have hstep : eval_group_step pq descm dispm cq st g
          = ⟨st.grs ++ [⟨g.group_name, 0, 0, 0, [], []⟩], st.missing, st.used, st.inv⟩ := by
        unfold eval_group_step
        rw [hg]
        norm_num
      show (eval_groups pq descm dispm cq rest (eval_group_step pq descm dispm cq st g)).missing
      = st.missing
      rw [hstep]
      exact ih _ (fun x hx => h x (List.mem_cons_of_mem g hx))

end BomCheck

namespace BomCheck

/-! ### Claim theorems -/

/-- C2: for every group with at least one applicable choice, allocation walks
the applicable choices sorted descending by (clamped) current pool balance
with ties broken by original declaration order (the walked list is sorted
under `alloc_le` and is a permutation of the applicable list); the walk
itself is extensionally the spec's policy (`spec_alloc_walk`): consume
`min(currentPoolBalance, remainingRequirement)` from each choice, deplete the
pool, record it in `matchedDetails`, and stop as soon as the requirement is
met.  In particular, with required quantity 3 and two applicable choices at
pool balances 2 and 5, all 3 units come from the balance-5 choice and
`missingQty = 0`. -/
theorem c2_allocation_policy :
    (∀ (g : BindingGroup) (ref : List (String × ℚ)) (inv : String → ℚ),
        List.Sorted alloc_le
          (List.insertionSort alloc_le (applicable_pass g ref inv).applicable)
        ∧ (List.insertionSort alloc_le (applicable_pass g ref inv).applicable).Perm
            (applicable_pass g ref inv).applicable)
    ∧ (∀ (disp : List (String × String)) (req : ℚ) (l : List AppChoice)
          (inv : String → ℚ) (ful : ℚ) (det : List (String × ℚ)),
        alloc_loop disp req l inv ful det = spec_alloc_walk disp req l inv ful det)
    ∧ ((evaluate_group
          ⟨"G", PyNum.num 1,
            [⟨"A", "", Option.none, [], PyNum.none⟩,
             ⟨"B", "", Option.none, [], PyNum.none⟩]⟩
          3 (fun k => getQ [("A", 2), ("B", 5)] k) [("A", 2), ("B", 5)] []).1
          = ⟨"G", 3, 7, 0, [], [("B", 3)]⟩
        ∧ (evaluate_group
            ⟨"G", PyNum.num 1,
              [⟨"A", "", Option.none, [], PyNum.none⟩,
               ⟨"B", "", Option.none, [], PyNum.none⟩]⟩
            3 (fun k => getQ [("A", 2), ("B", 5)] k) [("A", 2), ("B", 5)] []).2 "B" = 2
        ∧ (evaluate_group
            ⟨"G", PyNum.num 1,
              [⟨"A", "", Option.none, [], PyNum.none⟩,
               ⟨"B", "", Option.none, [], PyNum.none⟩]⟩
            3 (fun k => getQ [("A", 2), ("B", 5)] k) [("A", 2), ("B", 5)] []).2 "A" = 2) := by
  refine ⟨fun g ref inv => ⟨List.sorted_insertionSort alloc_le _,
    List.perm_insertionSort alloc_le _⟩, alloc_loop_eq_spec, ?_, ?_, ?_⟩
  · with_unfolding_all rfl
  · with_unfolding_all rfl
  · with_unfolding_all rfl

/-- C3: consumption never oversubscribes the pool.  Globally, running the
whole binding evaluator either leaves a key's pool balance untouched or
strictly decreases it to a non-negative value.  At step granularity: an
allocation step on a choice with positive balance consumes exactly
`min(balance, remaining)`, which never exceeds the balance and never drives
the entry negative; and the index-part consumption writes exactly
`balance - min(aggregated, balance)`, with the consumed amount bounded by
the balance. -/
theorem c3_no_oversubscription :
    (∀ (pq : List (String × ℚ)) (inv : String → ℚ)
        (descm dispm : List (String × String)) (projects : List BindingProject)
        (k : String),
      pool_step (inv k)
        ((evaluate_binding_requirements pq inv descm dispm projects).inv k))
    ∧ (∀ (disp : List (String × String)) (req : ℚ) (c : AppChoice)
          (rest : List AppChoice) (inv : String → ℚ) (ful : ℚ)
          (det : List (String × ℚ)),
        ful < req → 0 < inv c.key →
        alloc_loop disp req (c :: rest) inv ful det
          = alloc_loop disp req rest
              (upd_inv inv c.key (inv c.key - min (inv c.key) (req - ful)))
              (ful + min (inv c.key) (req - ful))
              (add_detail det ((disp.lookup c.key).getD c.part_no)
                (min (inv c.key) (req - ful)))
          ∧ min (inv c.key) (req - ful) ≤ inv c.key
          ∧ 0 ≤ inv c.key - min (inv c.key) (req - ful))
    ∧ (∀ (inv : String → ℚ) (idxk : String) (pqv : ℚ),
        0 < pqv → 0 < inv idxk →
        upd_inv inv idxk (max (inv idxk - min pqv (inv idxk)) 0) idxk
          = inv idxk - min pqv (inv idxk)
        ∧ min pqv (inv idxk) ≤ inv idxk) := by
  refine ⟨evaluate_binding_requirements_pool, ?_, ?_⟩
  · intro disp req c rest inv ful det hlt hpos
    have hrem : max (req - ful) 0 = req - ful := max_eq_left (by linarith)
    have hcur : max (inv c.key) 0 = inv c.key := max_eq_left (le_of_lt hpos)
    have hminle : min (inv c.key) (req - ful) ≤ inv c.key := min_le_left _ _
    refine ⟨?_, hminle, by linarith⟩
    simp only [alloc_loop]
    rw [hrem, hcur]
    rw [if_neg (by intro hc; linarith), if_neg (not_le.mpr hpos)]
    have hminpos : 0 < min (inv c.key) (req - ful) := lt_min hpos (by linarith)
    rw [if_neg (not_le.mpr hminpos)]
    rw [max_eq_left (by linarith)]
  · intro inv idxk pqv hp hi
    have hminle : min pqv (inv idxk) ≤ inv idxk := min_le_right _ _
    refine ⟨?_, hminle⟩
    unfold upd_inv
    rw [if_pos rfl]
    exact max_eq_left (by linarith)

/-- C3 witness: the three parts of `c3_no_oversubscription` instantiated at
concrete inputs. -/
theorem c3_witness :
    pool_step ((fun _ => (2:ℚ)) "A")
      ((evaluate_binding_requirements [("A", 2)] (fun _ => (2:ℚ)) [] [] []).inv "A")
    ∧ min ((fun _ => (3:ℚ)) "P") (2 - 1) ≤ (fun _ => (3:ℚ)) "P"
    ∧ upd_inv (fun _ => (4:ℚ)) "I"
        (max ((fun _ => (4:ℚ)) "I" - min 1 ((fun _ => (4:ℚ)) "I")) 0) "I"
      = (fun _ => (4:ℚ)) "I" - min 1 ((fun _ => (4:ℚ)) "I") := by
  refine ⟨c3_no_oversubscription.1 [("A", 2)] (fun _ => (2:ℚ)) [] [] [] "A", ?_, ?_⟩
  · exact (c3_no_oversubscription.2.1 [] 2 ⟨0, "P", "P", 3⟩ [] (fun _ => (3:ℚ)) 1 []
      (by norm_num) (by norm_num)).2.1
  · exact (c3_no_oversubscription.2.2 (fun _ => (4:ℚ)) "I" 1 (by norm_num) (by norm_num)).1

/-- C1 counterexample: a project whose single group has no applicable choice
(its only choice has `conditionMode = ALL` on an absent part).  The group
result reports `required_qty = 0` and `missing_qty = 0` — not the claim's
entire `requiredQty = 3 × 2` — and no missing item is emitted. -/
theorem c1_counterexample :
    (evaluate_binding_requirements [("IDX", 3)] (fun k => getQ [("IDX", 3)] k) [] []
        [⟨"Proj", "IDX", "",
          [⟨"G1", PyNum.num 2, [⟨"P1", "", some "ALL", ["X"], PyNum.none⟩]⟩]⟩]).missing = []
    ∧ (evaluate_binding_requirements [("IDX", 3)] (fun k => getQ [("IDX", 3)] k) [] []
        [⟨"Proj", "IDX", "",
          [⟨"G1", PyNum.num 2, [⟨"P1", "", some "ALL", ["X"], PyNum.none⟩]⟩]⟩]).results
        = [⟨"Proj", "IDX", 3, [⟨"G1", 0, 0, 0, [], []⟩]⟩]
    ∧ (0:ℚ) ≠ 3 * 2 := by
  refine ⟨?_, ?_, by norm_num⟩
  · with_unfolding_all rfl
  · with_unfolding_all rfl

/-- C1 (amended): when no choice of a group is applicable (after condition
filtering and skipping empty part numbers), `_evaluate_group` reports a
zero result — `required_qty = available_qty = missing_qty = 0`, no missing
choices, no matched details — and leaves the pool untouched; consequently
the project evaluation emits no missing item for such groups.  No exception
is raised (the evaluator is a total function). -/
theorem c1_no_applicable_zero_result :
    (∀ (g : BindingGroup) (pqv : ℚ) (inv : String → ℚ) (ref : List (String × ℚ))
        (disp : List (String × String)),
      (∀ c ∈ g.choices, c.part_no = "" ∨ choice_condition_met c ref = false) →
      evaluate_group g pqv inv ref disp = (⟨g.group_name, 0, 0, 0, [], []⟩, inv))
    ∧ (∀ (pq : List (String × ℚ)) (descm dispm : List (String × String))
          (st : EvalState) (proj : BindingProject),
        (∀ g ∈ proj.required_groups, ∀ c ∈ g.choices,
            c.part_no = "" ∨ choice_condition_met c pq = false) →
        (eval_project pq descm dispm st proj).missing = st.missing) := by
  refine ⟨evaluate_group_zero_of_no_applicable, ?_⟩
  intro pq descm dispm st proj h
  unfold eval_project
  by_cases h1 : getQ pq (normalize_part_no proj.index_part_no) ≤ 0
  · rw [if_pos h1]
  · rw [if_neg h1]
    by_cases h2 : st.inv (normalize_part_no proj.index_part_no) ≤ 0
    · rw [if_pos h2]
    · rw [if_neg h2]
      exact eval_groups_missing_no_applicable pq descm dispm _ proj.required_groups _ h

/-- C1 witness: `c1_no_applicable_zero_result` instantiated at a group whose
only choice is gated by `ALL` on an absent part, and at a project all of
whose groups are inapplicable. -/
theorem c1_witness :
    evaluate_group ⟨"G1", PyNum.num 2, [⟨"P1", "", some "ALL", ["X"], PyNum.none⟩]⟩
        3 (fun _ => (0:ℚ)) [] []
      = (⟨"G1", 0, 0, 0, [], []⟩, (fun _ => (0:ℚ)))
    ∧ (eval_project [("IDX", 3)] [] []
        ⟨[], [], [], fun k => getQ [("IDX", 3)] k⟩
        ⟨"Proj", "IDX", "",
          [⟨"G1", PyNum.num 2, [⟨"P1", "", some "ALL", ["X"], PyNum.none⟩]⟩]⟩).missing
      = [] := by
  constructor
  · exact c1_no_applicable_zero_result.1 _ _ _ _ _ (by decide)
  · exact c1_no_applicable_zero_result.2 _ _ _ _ _ (by decide)

/-- C4 counterexample: (a) a group with multiplier 2 but no applicable choice
reports `required_qty = 0`, not `consumedIndexQty × multiplier = 3 × 2`;
(b) a group with (parsable) multiplier `-1` and an applicable choice reports
the negative `required_qty = 2 × (-1)`, so `requiredQty` is not "never
negative". -/
theorem c4_counterexample :
    ((evaluate_group ⟨"G1", PyNum.num 2, [⟨"P1", "", some "ALL", ["X"], PyNum.none⟩]⟩
        3 (fun k => getQ [("IDX", 3)] k) [("IDX", 3)] []).1.required_qty = 0
      ∧ (0:ℚ) ≠ 3 * 2)
    ∧ ((evaluate_group ⟨"G2", PyNum.num (-1), [⟨"P", "", Option.none, [], PyNum.none⟩]⟩
        2 (fun k => getQ [("P", 1)] k) [("P", 1)] []).1.required_qty = 2 * (-1)
      ∧ (2 * (-1) : ℚ) < 0) := by
  refine ⟨⟨?_, by norm_num⟩, ⟨?_, by norm_num⟩⟩
  · with_unfolding_all rfl
  · with_unfolding_all rfl

/-- C4 (amended): `missing_qty = max(required_qty − fulfilled, 0)` exactly,
where `fulfilled` is the total of `matched_details`, for every evaluated
group; `required_qty = consumedIndexQty × multiplier` (multiplier defaulting
to 1.0 on missing/unparsable values) whenever the group has at least one
applicable choice, while a group with no applicable choice reports
`required_qty = 0`; and `required_qty` is non-negative provided the consumed
index quantity and the multiplier are non-negative. -/
theorem c4_required_and_missing :
    ∀ (g : BindingGroup) (pqv : ℚ) (inv : String → ℚ) (ref : List (String × ℚ))
      (disp : List (String × String)),
      ((evaluate_group g pqv inv ref disp).1.missing_qty
        = max ((evaluate_group g pqv inv ref disp).1.required_qty
            - sum_det (evaluate_group g pqv inv ref disp).1.matched_details) 0)
      ∧ ((applicable_pass g ref inv).enabled = true →
          (evaluate_group g pqv inv ref disp).1.required_qty
            = pqv * base_requirement g)
      ∧ ((applicable_pass g ref inv).enabled = false →
          (evaluate_group g pqv inv ref disp).1.required_qty = 0)
      ∧ (0 ≤ pqv → 0 ≤ base_requirement g →
          0 ≤ (evaluate_group g pqv inv ref disp).1.required_qty) := by
  intro g pqv inv ref disp
  by_cases h : (applicable_pass g ref inv).enabled = false
  · refine ⟨?_, ?_, ?_, ?_⟩
    · simp only [evaluate_group, if_pos h]
      norm_num [sum_det]
    · intro ht; rw [ht] at h; simp at h
    · intro _; simp only [evaluate_group, if_pos h]
    · intro _ _; simp only [evaluate_group, if_pos h]
      norm_num
  · have hsum := alloc_loop_sum disp (pqv * base_requirement g)
      (List.insertionSort alloc_le (applicable_pass g ref inv).applicable) inv 0 []
    refine ⟨?_, ?_, ?_, ?_⟩
    · simp only [evaluate_group, if_neg h]
      simp only [sum_det]
      simp only [sum_det, List.map_nil, List.sum_nil, zero_add, sub_zero] at hsum
      rw [hsum]
    · intro _; simp only [evaluate_group, if_neg h]
    · intro hf; exact absurd hf h
    · intro hpq hbase
      simp only [evaluate_group, if_neg h]
      exact mul_nonneg hpq hbase

/-- C4 witness: `c4_required_and_missing` instantiated at a group with one
unconditional choice (hence applicable) and at non-negative inputs. -/
theorem c4_witness :
    ((evaluate_group ⟨"G", PyNum.num 1, [⟨"A", "", Option.none, [], PyNum.none⟩]⟩
        3 (fun k => getQ [("A", 2)] k) [("A", 2)] []).1.missing_qty
      = max ((evaluate_group ⟨"G", PyNum.num 1, [⟨"A", "", Option.none, [], PyNum.none⟩]⟩
          3 (fun k => getQ [("A", 2)] k) [("A", 2)] []).1.required_qty
          - sum_det (evaluate_group ⟨"G", PyNum.num 1, [⟨"A", "", Option.none, [], PyNum.none⟩]⟩
              3 (fun k => getQ [("A", 2)] k) [("A", 2)] []).1.matched_details) 0)
    ∧ (applicable_pass ⟨"G", PyNum.num 1, [⟨"A", "", Option.none, [], PyNum.none⟩]⟩
        [("A", 2)] (fun k => getQ [("A", 2)] k)).enabled = true
    ∧ (evaluate_group ⟨"G", PyNum.num 1, [⟨"A", "", Option.none, [], PyNum.none⟩]⟩
        3 (fun k => getQ [("A", 2)] k) [("A", 2)] []).1.required_qty
      = 3 * base_requirement ⟨"G", PyNum.num 1, [⟨"A", "", Option.none, [], PyNum.none⟩]⟩
    ∧ 0 ≤ (evaluate_group ⟨"G", PyNum.num 1, [⟨"A", "", Option.none, [], PyNum.none⟩]⟩
        3 (fun k => getQ [("A", 2)] k) [("A", 2)] []).1.required_qty := by
  have h := c4_required_and_missing
    ⟨"G", PyNum.num 1, [⟨"A", "", Option.none, [], PyNum.none⟩]⟩
    3 (fun k => getQ [("A", 2)] k) [("A", 2)] []
  have henabled : (applicable_pass ⟨"G", PyNum.num 1, [⟨"A", "", Option.none, [], PyNum.none⟩]⟩
      [("A", 2)] (fun k => getQ [("A", 2)] k)).enabled = true := by decide
  exact ⟨h.1, henabled, h.2.1 henabled,
    h.2.2.2 (by norm_num) (by norm_num [base_requirement])⟩

/-- C5: per project, in declared order (`evaluate_binding_requirements` folds
`eval_project` over the projects): when the index part's aggregated total or
its current pool balance is `≤ 0` the project is skipped entirely (the whole
evaluator state is unchanged — no groups evaluated, no result emitted);
otherwise exactly one result is appended with
`consumedIndexQty = min(aggregatedTotal, poolBalance)`, the index key lands
in the used-parts set, and the index pool entry is overwritten with exactly
`poolBalance − consumedIndexQty` (the `max(·, 0)` clamp is a no-op since the
consumption never exceeds the balance). -/
theorem c5_index_consumption :
    ∀ (pq : List (String × ℚ)) (descm dispm : List (String × String))
      (st : EvalState) (proj : BindingProject),
      ((getQ pq (normalize_part_no proj.index_part_no) ≤ 0
          ∨ st.inv (normalize_part_no proj.index_part_no) ≤ 0) →
        eval_project pq descm dispm st proj = st)
      ∧ (0 < getQ pq (normalize_part_no proj.index_part_no) →
         0 < st.inv (normalize_part_no proj.index_part_no) →
         (∃ grs missing2 used2 inv2,
            eval_project pq descm dispm st proj =
              ⟨st.results ++ [⟨proj.project_desc, proj.index_part_no,
                  min (getQ pq (normalize_part_no proj.index_part_no))
                      (st.inv (normalize_part_no proj.index_part_no)), grs⟩],
               missing2, used2, inv2⟩
            ∧ normalize_part_no proj.index_part_no ∈ used2)
         ∧ upd_inv st.inv (normalize_part_no proj.index_part_no)
             (max (st.inv (normalize_part_no proj.index_part_no)
               - min (getQ pq (normalize_part_no proj.index_part_no))
                     (st.inv (normalize_part_no proj.index_part_no))) 0)
             (normalize_part_no proj.index_part_no)
           = st.inv (normalize_part_no proj.index_part_no)
             - min (getQ pq (normalize_part_no proj.index_part_no))
                   (st.inv (normalize_part_no proj.index_part_no))
         ∧ min (getQ pq (normalize_part_no proj.index_part_no))
               (st.inv (normalize_part_no proj.index_part_no))
             ≤ st.inv (normalize_part_no proj.index_part_no)) := by
  intro pq descm dispm st proj
  constructor
  · intro h
    unfold eval_project
    by_cases h1 : getQ pq (normalize_part_no proj.index_part_no) ≤ 0
    · rw [if_pos h1]
    · rw [if_neg h1]
      rcases h with h | h
      · exact absurd h h1
      · rw [if_pos h]
  · intro hp ha
    refine ⟨?_, ?_, min_le_right _ _⟩
    · unfold eval_project
      rw [if_neg (not_le.mpr hp), if_neg (not_le.mpr ha)]
      refine ⟨_, _, _, _, rfl, ?_⟩
      exact eval_groups_used_mono pq descm dispm _ proj.required_groups _
        (insert_used_self st.used (normalize_part_no proj.index_part_no))
    · unfold upd_inv
      rw [if_pos rfl]
      have hmin : min (getQ pq (normalize_part_no proj.index_part_no))
          (st.inv (normalize_part_no proj.index_part_no))
          ≤ st.inv (normalize_part_no proj.index_part_no) := min_le_right _ _
      exact max_eq_left (by linarith)

/-- C5 witness: `c5_index_consumption` instantiated at a concrete skipped
project (absent index part) and a concrete consumed project (index part with
aggregated total 2 and pool balance 2). -/
theorem c5_witness :
    eval_project [] [] [] ⟨[], [], [], fun _ => (0:ℚ)⟩ ⟨"P0", "I", "", []⟩
      = ⟨[], [], [], fun _ => (0:ℚ)⟩
    ∧ normalize_part_no "I"
        ∈ (eval_project [("I", 2)] [] [] ⟨[], [], [], fun _ => (2:ℚ)⟩
            ⟨"P1", "I", "", []⟩).used
    ∧ min (getQ [("I", 2)] (normalize_part_no "I")) ((fun _ => (2:ℚ)) (normalize_part_no "I"))
        ≤ (fun _ => (2:ℚ)) (normalize_part_no "I") := by
  have h0 := c5_index_consumption [] [] [] ⟨[], [], [], fun _ => (0:ℚ)⟩ ⟨"P0", "I", "", []⟩
  have h1 := c5_index_consumption [("I", 2)] [] [] ⟨[], [], [], fun _ => (2:ℚ)⟩
    ⟨"P1", "I", "", []⟩
  have hp : (0:ℚ) < getQ [("I", 2)] (normalize_part_no "I") := by decide
  have ha : (0:ℚ) < (⟨[], [], [], fun _ => (2:ℚ)⟩ : EvalState).inv (normalize_part_no "I") := by
    decide
  refine ⟨h0.1 (Or.inl (by decide)), ?_, (h1.2 hp ha).2.2⟩
  obtain ⟨⟨grs, m2, u2, i2, heq, hmem⟩, _, _⟩ := h1.2 hp ha
  rw [heq]
  exact hmem

/-- C6 (code bug): whenever a matched row is classified as already processed,
`_apply_replacements` executes
`summary.total_invalid_previously_marked += 1` (excel_processor.py line 254);
`models.ReplacementSummary` (models.py lines 17-21) declares no
`total_invalid_previously_marked` field, so the statement raises
`AttributeError` instead of incrementing a counter and continuing. -/
theorem c6_previously_marked_attribute_error :
    ∀ (summary : ReplacementSummary) (sheet : String) (row_idx : ℕ)
      (row : List PCell) (part_col_idx : ℕ) (entry : InvalidEntry),
      row_already_replaced row part_col_idx
          (row.getD part_col_idx ⟨CellValue.none, Option.none, Option.none⟩)
          entry.replacement_no = true →
      apply_replacement_row summary sheet row_idx row part_col_idx entry
        = Except.error
            "AttributeError: ReplacementSummary has no attribute total_invalid_previously_marked" := by
  intro summary sheet row_idx row part_col_idx entry h
  unfold apply_replacement_row
  rw [if_pos h]

/-- C6 witness: a row whose part cell is already black-filled and whose
recorded replacement part appears in another cell is classified "already
replaced", and processing it yields the `AttributeError`. -/
theorem c6_witness :
    row_already_replaced
        [⟨CellValue.str "U1", some "solid", some "000000"⟩,
         ⟨CellValue.str "R1", Option.none, Option.none⟩] 0
        (([⟨CellValue.str "U1", some "solid", some "000000"⟩,
           ⟨CellValue.str "R1", Option.none, Option.none⟩] :
            List PCell).getD 0 ⟨CellValue.none, Option.none, Option.none⟩)
        (some "R1") = true
    ∧ apply_replacement_row ⟨0, 0, []⟩ "Sheet1" 2
        [⟨CellValue.str "U1", some "solid", some "000000"⟩,
         ⟨CellValue.str "R1", Option.none, Option.none⟩] 0
        ⟨"U1", "bad part", some "R1", some "new part"⟩
      = Except.error
          "AttributeError: ReplacementSummary has no attribute total_invalid_previously_marked" := by
  refine ⟨by decide, ?_⟩
  exact c6_previously_marked_attribute_error ⟨0, 0, []⟩ "Sheet1" 2
    [⟨CellValue.str "U1", some "solid", some "000000"⟩,
     ⟨CellValue.str "R1", Option.none, Option.none⟩] 0
    ⟨"U1", "bad part", some "R1", some "new part"⟩ (by decide)

/-- C7: every cell value on which `_parse_quantity_value` fails makes the
aggregation row use quantity 0 and log a diagnostic (the parser and the row
handler are total functions, so no exception is possible); the parser does
tolerate thousands separators ("1,234") and extracts the first embedded
numeric token ("约3.5只" parses as 3.5). -/
theorem c7_unparsable_quantity_defaults_zero :
    (∀ v : CellValue, parse_quantity_value v = Option.none →
        row_quantity (some v) = (0, true))
    ∧ parse_quantity_value (CellValue.str "1,234") = some 1234
    ∧ parse_quantity_value (CellValue.str "约3.5只") = some (7/2) := by
  refine ⟨?_, ?_, ?_⟩
  · intro v h
    simp only [row_quantity, h]
  · with_unfolding_all rfl
  · with_unfolding_all rfl

/-- C7 witness: the string "abc" has no numeric token, and the aggregator
then uses 0 with a logged diagnostic. -/
theorem c7_witness :
    parse_quantity_value (CellValue.str "abc") = Option.none
    ∧ row_quantity (some (CellValue.str "abc")) = (0, true) := by
  refine ⟨by with_unfolding_all rfl, ?_⟩
  exact c7_unparsable_quantity_defaults_zero.1 (CellValue.str "abc")
    (by with_unfolding_all rfl)

/-- C8 counterexample: a worksheet with no quantity-keyword header and no
column containing any parseable value.  `_identify_quantity_column` returns
`None` — not a fixed fallback column index. -/
theorem c8_counterexample :
    numeric_scores
        [[CellValue.str "h1", CellValue.str "h2", CellValue.str "h3"],
         [CellValue.str "x", CellValue.str "y", CellValue.str "z"]] = []
    ∧ header_candidates
        [[CellValue.str "h1", CellValue.str "h2", CellValue.str "h3"],
         [CellValue.str "x", CellValue.str "y", CellValue.str "z"]] = []
    ∧ identify_quantity_column
        [[CellValue.str "h1", CellValue.str "h2", CellValue.str "h3"],
         [CellValue.str "x", CellValue.str "y", CellValue.str "z"]] = Option.none := by
  refine ⟨?_, ?_, ?_⟩
  · with_unfolding_all rfl
  · with_unfolding_all rfl
  · with_unfolding_all rfl

/-- C8 (amended): candidates are ranked by maximising the integer-parseable
count, then the parseable count, then minimising parse failures, then lowest
column index (`select_best` returns a minimum of `score_le`).  But when no
candidate scores, the inference returns no column (`None`) if no header cell
carried a quantity keyword, and the first header-keyword column otherwise —
there is no fixed fallback column index in
`ExcelProcessor._identify_quantity_column` (the fixed fallback 4 exists only
in the legacy `bom_processor._detect_quantity_column`, whose ranking also
differs). -/
theorem c8_ranking_and_fallback :
    (∀ (scores : List ColScore) (b : ℕ), select_best scores = some b →
        ∃ sc, sc ∈ scores ∧ sc.col = b ∧ ∀ s ∈ scores, score_le sc s)
    ∧ (∀ ws : Worksheet, header_candidates ws = [] → numeric_scores ws = [] →
        identify_quantity_column ws = Option.none)
    ∧ (∀ (ws : Worksheet) (h : ℕ) (t : List ℕ), header_candidates ws = h :: t →
        select_best ((numeric_scores ws).filter
          (fun sc => (header_candidates ws).contains sc.col)) = Option.none →
        identify_quantity_column ws = some h) := by
  refine ⟨select_best_min, ?_, ?_⟩
  · intro ws h1 h2
    unfold identify_quantity_column
    rw [h1, h2]
    rfl
  · intro ws h t h1 h2
    simp only [identify_quantity_column, h1]
    rw [h1] at h2
    rw [h2]

/-- C8 witness: `c8_ranking_and_fallback` instantiated at a concrete score
list (the column with more integer-parseable values wins), at the
no-header/no-scores worksheet (result `None`), and at a worksheet whose
header marks a quantity column that has no parseable data (result: that
header column). -/
theorem c8_witness :
    (∃ sc, sc ∈ [(⟨2, 1, 1, 0, 1⟩ : ColScore), ⟨3, 2, 2, 0, 2⟩]
        ∧ sc.col = 3
        ∧ ∀ s ∈ [(⟨2, 1, 1, 0, 1⟩ : ColScore), ⟨3, 2, 2, 0, 2⟩], score_le sc s)
    ∧ identify_quantity_column
        [[CellValue.str "h1", CellValue.str "h2", CellValue.str "h3"],
         [CellValue.str "x", CellValue.str "y", CellValue.str "z"]] = Option.none
    ∧ identify_quantity_column
        [[CellValue.str "a", CellValue.str "b", CellValue.str "qty"],
         [CellValue.str "x", CellValue.str "y", CellValue.str "z"]] = some 2 := by
  refine ⟨?_, ?_, ?_⟩
  · exact c8_ranking_and_fallback.1 [⟨2, 1, 1, 0, 1⟩, ⟨3, 2, 2, 0, 2⟩] 3 (by decide)
  · exact c8_ranking_and_fallback.2.1 _ (by with_unfolding_all rfl) (by with_unfolding_all rfl)
  · exact c8_ranking_and_fallback.2.2 _ 2 [] (by with_unfolding_all rfl) (by with_unfolding_all rfl)

/-- C9: the fuzzy matching predicate holds iff some non-empty variant of the
keyword is a substring of some non-empty variant of the value, or vice versa
(bidirectional containment). -/
theorem c9_variants_match_iff :
    ∀ (keyword_variants value_variants : List String),
      variants_match keyword_variants value_variants = true
        ↔ ∃ kv ∈ keyword_variants, kv ≠ "" ∧ ∃ vv ∈ value_variants, vv ≠ "" ∧
            (kv.data <:+: vv.data ∨ vv.data <:+: kv.data) := by
  intro kvs vvs
  unfold variants_match
  by_cases h : kvs.isEmpty || vvs.isEmpty
  · rw [if_pos h]
    constructor
    · intro hc; exact absurd hc (by decide)
    · rintro ⟨kv, hkv, _, vv, hvv, _, _⟩
      exfalso
      rcases Bool.or_eq_true_iff.mp h with h2 | h2
      · rw [List.isEmpty_iff] at h2
        subst h2
        exact absurd hkv (List.not_mem_nil kv)
      · rw [List.isEmpty_iff] at h2
        subst h2
        exact absurd hvv (List.not_mem_nil vv)
  · rw [if_neg h]
    exact variants_match_outer_iff kvs vvs

/-- C10: the remainder sheet emits, for every key in the remainder set, the
key's full aggregated total from `part_quantities` — `remainder_rows` never
consults the depleted pool.  Concretely: with index part "I" (total 1) and a
group consuming 3 of "B" (total 5), the evaluator leaves pool balance 2 for
"B", yet when "B" is important (hence in the remainder set) its emitted
remainder row carries quantity 5, not the leftover 2 — the open question on
remainder semantics is resolved toward the untouched aggregate. -/
theorem c10_remainder_uses_aggregate :
    (∀ (pq : List (String × ℚ)) (descm dispm : List (String × String))
        (used imp : List String) (k : String),
      k ∈ remainder_keys pq used imp →
      ((dispm.lookup k).getD k, (descm.lookup k).getD "", getQ pq k)
        ∈ remainder_rows pq descm dispm (remainder_keys pq used imp))
    ∧ ((evaluate_binding_requirements [("I", 1), ("B", 5)]
          (fun k => getQ [("I", 1), ("B", 5)] k) [] []
          [⟨"P", "I", "",
            [⟨"G", PyNum.num 3, [⟨"B", "", Option.none, [], PyNum.none⟩]⟩]⟩]).inv "B" = 2
      ∧ getQ [("I", 1), ("B", 5)] "B" = 5
      ∧ remainder_rows [("I", 1), ("B", 5)] [] []
          (remainder_keys [("I", 1), ("B", 5)]
            (evaluate_binding_requirements [("I", 1), ("B", 5)]
              (fun k => getQ [("I", 1), ("B", 5)] k) [] []
              [⟨"P", "I", "",
                [⟨"G", PyNum.num 3, [⟨"B", "", Option.none, [], PyNum.none⟩]⟩]⟩]).used
            ["B"])
          = [("B", "", 5)]
      ∧ (2:ℚ) ≠ 5) := by
  constructor
  · intro pq descm dispm used imp k hk
    unfold remainder_rows
    have hmem : k ∈ List.insertionSort (disp_le dispm) (remainder_keys pq used imp) :=
      (List.perm_insertionSort (disp_le dispm) _).mem_iff.mpr hk
    exact List.mem_map_of_mem _ hmem
  · refine ⟨?_, ?_, ?_, by norm_num⟩
    · with_unfolding_all rfl
    · with_unfolding_all rfl
    · with_unfolding_all rfl

/-- C10 witness: `c10_remainder_uses_aggregate` instantiated at a singleton
aggregation map with nothing used. -/
theorem c10_witness :
    "A" ∈ remainder_keys [("A", 4)] [] []
    ∧ ((([] : List (String × String)).lookup "A").getD "A",
        (([] : List (String × String)).lookup "A").getD "", getQ [("A", 4)] "A")
        ∈ remainder_rows [("A", 4)] [] [] (remainder_keys [("A", 4)] [] []) := by
  refine ⟨by decide, ?_⟩
  exact c10_remainder_uses_aggregate.1 [("A", 4)] [] [] [] [] "A" (by decide)

end BomCheck
